import Mathlib

/-!
Verification of the `migrate export` command of git-lfs
(`src/commands/command_migrate_export.go`) against its specification.

The file shallowly embeds the command's two rewrite callbacks (`BlobFn`,
`TreeCallbackFn`), the canonical attribute-set construction
(`trackedFromExportFilter`) and the orchestrating command
(`migrateExportCommand`).  Collaborators that live outside the source file
(the ordered set, attribute parsing/serialisation, pattern escaping, the
rewrite engine, the repository utilities) are modelled from the
specification, as flagged in their doc comments.
-/

namespace GitLfs

/-- Errors are abstract messages. -/
abbrev Err := String

/-! ## Ordered attribute sets

Modelled from the spec: `tools.OrderedSet` is a sequence of unique lines;
insertion order is significant and duplicates are silently suppressed. -/

namespace OrderedSet

/-- Modelled from the spec: `OrderedSet.Add` appends the line unless an
equal line is already present. -/
def add (s : List String) (x : String) : List String :=
  if x ∈ s then s else s ++ [x]

/-- Modelled from the spec: `OrderedSet.Clone` is a deep, independent copy;
on pure values it is the identity. -/
def clone (s : List String) : List String := s

/-- Modelled from the spec: `OrderedSet.Union` produces every element of the
receiver in its original order, followed by every element of the other
operand not already present, in the other operand's order. -/
def union (s other : List String) : List String :=
  other.foldl add s

end OrderedSet

/-- Modelled from the spec: `escapeAttrPattern` escapes space, `#`, `!` and
backslash by prefixing each with a backslash, in one left-to-right pass that
never reprocesses an inserted backslash. -/
def escapeAttrChars : List Char := [' ', '#', '!', '\\']

def escapeAttrAux : List Char → List Char
  | [] => []
  | c :: cs =>
    if escapeAttrChars.contains c then '\\' :: c :: escapeAttrAux cs
    else c :: escapeAttrAux cs

/-- Modelled from the spec: the pattern-escaping transform used for
attribute lines (the Go helper `escapeAttrPattern` lives outside this
source file). -/
def escapeAttrPattern (s : String) : String :=
  ⟨escapeAttrAux s.data⟩

/-- `filepath.Base` for slash-separated paths, as in the Go standard
library: trailing separators are dropped, the last path element is
returned, the empty path gives `"."` and an all-separator path gives
`"/"`. -/
def filepathBase (p : String) : String :=
  if p = "" then "."
  else
    let rev := p.data.reverse.dropWhile (fun c => c = '/')
    if rev.isEmpty then "/"
    else ⟨(rev.takeWhile (fun c => c ≠ '/')).reverse⟩

/-! ## Objects -/

/-- `odb.Blob`: contents (a byte stream, modelled as a string of bytes) and
their length. -/
structure Blob where
  contents : String
  size : Nat
  deriving DecidableEq

/-- `odb.TreeEntry`: a named child carrying a file mode and an object id. -/
structure TreeEntry where
  name : String
  filemode : Nat
  oid : Nat
  deriving DecidableEq

/-- `odb.Tree`: an ordered list of entries. -/
structure Tree where
  entries : List TreeEntry
  deriving DecidableEq

/-- Modelled from the spec: `odb.Tree.Merge` returns a new tree identical to
the input except that the entry of the given name is replaced in place, or
appended when absent. -/
def Tree.Merge (t : Tree) (e : TreeEntry) : Tree :=
  if t.entries.any (fun x => x.name = e.name) then
    ⟨t.entries.map (fun x => if x.name = e.name then e else x)⟩
  else
    ⟨t.entries ++ [e]⟩

/-- The object database handle, restricted to the operations the transforms
use: reading a blob by id and writing a new blob for an id. -/
structure DB where
  readBlob : Nat → Except Err String
  writeBlob : String → Except Err Nat

/-! ## Attribute-set construction and (de)serialisation -/

/-- The export directive suffix appended to each include pattern. -/
def exportDirective : String := " text -filter -merge -diff"

/-- The track directive suffix appended to each exclude pattern. -/
def trackDirective : String := " filter=lfs diff=lfs merge=lfs -text"

/-- `trackedFromExportFilter`: one line per include pattern pairing the
escaped pattern with `text -filter -merge -diff`, then one line per exclude
pattern pairing the escaped pattern with
`filter=lfs diff=lfs merge=lfs -text`, collected into an ordered set. -/
def trackedFromExportFilter (inc exc : List String) : List String :=
  let t := inc.foldl
    (fun s p => OrderedSet.add s (escapeAttrPattern p ++ exportDirective)) []
  exc.foldl
    (fun s p => OrderedSet.add s (escapeAttrPattern p ++ trackDirective)) t

/-- Splitting a character list at newlines: the current line and the
remaining lines. -/
def splitLinesAux : List Char → List Char × List (List Char)
  | [] => ([], [])
  | c :: cs =>
    let r := splitLinesAux cs
    if c = '\n' then ([], r.1 :: r.2)
    else (c :: r.1, r.2)

/-- The newline-separated segments of a string. -/
def splitLines (s : String) : List String :=
  let r := splitLinesAux s.data
  (r.1 :: r.2).map (fun l => ⟨l⟩)

/-- Modelled from the spec: the existing per-commit attribute blob is parsed
line-by-line into an ordered set (blank lines carry no attribute line). -/
def parseAttrLines (content : String) : List String :=
  ((splitLines content).filter (fun l => l ≠ "")).foldl OrderedSet.add []

/-- Modelled from the spec: `trackedFromAttrs` looks up the `.gitattributes`
entry of the root tree; when present its blob is read and parsed, when
absent the set is empty; a read failure propagates. -/
def trackedFromAttrs (db : DB) (t : Tree) : Except Err (List String) :=
  match t.entries.find? (fun e => e.name = ".gitattributes") with
  | none => .ok []
  | some e =>
    match db.readBlob e.oid with
    | .error err => .error err
    | .ok content => .ok (parseAttrLines content)

/-- Serialisation of an ordered set: each line followed by a newline. -/
def serializeSet (s : List String) : String :=
  String.join (s.map (fun l => l ++ "\n"))

/-- Modelled from the spec: `trackedToBlob` serialises the merged set as
newline-terminated text and stores it as a new blob, returning its id. -/
def trackedToBlob (db : DB) (s : List String) : Except Err Nat :=
  db.writeBlob (serializeSet s)

/-! ## The two rewrite callbacks -/

/-- `BlobFn`: the blob transform.  The content filter (`smudge`) is an
oracle parameter; paths whose basename is `.gitattributes` pass through
unchanged, every other blob is replaced by its resolved bytes. -/
def BlobFn (smudgeO : String → String → Except Err String)
    (path : String) (b : Blob) : Except Err Blob :=
  if filepathBase path = ".gitattributes" then .ok b
  else
    match smudgeO path b.contents with
    | .error e => .error e
    | .ok buf => .ok ⟨buf, buf.length⟩

/-- `TreeCallbackFn`: the tree transform.  Non-root trees are returned
unchanged; at the root the existing attribute set is parsed, cloned,
unioned with the canonical set `tracked`, written as a new blob, and the
tree's `.gitattributes` entry is replaced or added with mode `0100644`. -/
def TreeCallbackFn (db : DB) (tracked : List String)
    (path : String) (t : Tree) : Except Err Tree :=
  if path ≠ "/" then .ok t
  else
    match trackedFromAttrs db t with
    | .error e => .error e
    | .ok theirs =>
      match trackedToBlob db (OrderedSet.union (OrderedSet.clone theirs) tracked) with
      | .error e => .error e
      | .ok blob => .ok (t.Merge ⟨".gitattributes", 0o100644, blob⟩)

/-! ## The orchestrating command

`migrateExportCommand` is embedded as a function of an environment of
oracles standing for the external collaborators: the object database
acquisition, the path filter, the content filter, the rewrite engine, and
the repository utilities.  Control effects of helpers outside this source
file are modelled from the spec: a fatal exit carries a non-zero status and
deferred releases run as the command completes; the rewrite engine either
succeeds (and only then updates refs) or fails leaving refs untouched; the
bareness check yields a boolean together with a possible error. -/

/-- `githistory.RewriteOptions`, restricted to the fields the claims are
about: the two callbacks and the update-refs flag. -/
structure RewriteOptions where
  blobFn : String → Blob → Except Err Blob
  treeCallbackFn : String → Tree → Except Err Tree
  updateRefs : Bool

/-- The environment of external collaborators of the command.  The rewrite
engine reports its outcome together with the number of objects it created. -/
structure Env where
  getObjectDatabase : Except Err DB
  filterInclude : List String
  filterExclude : List String
  smudge : String → String → Except Err String
  rewriteEngine : RewriteOptions → Except Err Unit × Nat
  isBare : Bool × Option Err
  checkout : Option Err

/-- The observable result of one command run. -/
structure CmdResult where
  exitCode : Nat
  fatalMsg : Option Err
  dbClosed : Bool
  rewriteInvoked : Bool
  objectsCreated : Nat
  refsUpdated : Bool
  checkoutAttempted : Bool
  deriving DecidableEq

/-- The rewrite options the command hands to the engine: the two callbacks
closing over the database handle and the canonical set, with refs updated
only on success. -/
def mkRewriteOptions (env : Env) (db : DB) : RewriteOptions :=
  { blobFn := BlobFn env.smudge
  , treeCallbackFn :=
      TreeCallbackFn db (trackedFromExportFilter env.filterInclude env.filterExclude)
  , updateRefs := true }

/-- `migrateExportCommand`: acquire the database (fatal exit on failure),
register its release, reject an empty include list before the engine runs,
compute the canonical set once, run the rewrite engine, and on success
perform a forced checkout unless the repository is bare — the bareness
error being discarded. -/
def migrateExportCommand (env : Env) : CmdResult :=
  match env.getObjectDatabase with
  | .error e =>
    { exitCode := 2, fatalMsg := some e, dbClosed := false
    , rewriteInvoked := false, objectsCreated := 0
    , refsUpdated := false, checkoutAttempted := false }
  | .ok db =>
    if env.filterInclude.length ≤ 0 then
      { exitCode := 2
      , fatalMsg := some "fatal: one or more files must be specified with --include"
      , dbClosed := true, rewriteInvoked := false, objectsCreated := 0
      , refsUpdated := false, checkoutAttempted := false }
    else
      match env.rewriteEngine (mkRewriteOptions env db) with
      | (.error e, n) =>
        { exitCode := 2, fatalMsg := some e, dbClosed := true
        , rewriteInvoked := true, objectsCreated := n
        , refsUpdated := false, checkoutAttempted := false }
      | (.ok _, n) =>
        if env.isBare.1 then
          { exitCode := 0, fatalMsg := none, dbClosed := true
          , rewriteInvoked := true, objectsCreated := n
          , refsUpdated := true, checkoutAttempted := false }
        else
          match env.checkout with
          | some e =>
            { exitCode := 2, fatalMsg := some e, dbClosed := true
            , rewriteInvoked := true, objectsCreated := n
            , refsUpdated := true, checkoutAttempted := true }
          | none =>
            { exitCode := 0, fatalMsg := none, dbClosed := true
            , rewriteInvoked := true, objectsCreated := n
            , refsUpdated := true, checkoutAttempted := true }

/-! ## A store-passing model of the tree callback

To state that the canonical set is never mutated, the ordered sets are also
modelled with explicit references into a store, so that aliasing and
in-place updates are visible.  `OrderedSet.unionS` updates its receiver
cell in place — the worst behaviour consistent with the spec and the reason
the source clones the per-commit set first — while the operand cell is only
read. -/

/-- A store of ordered-set cells, addressed by allocation index. -/
structure Store where
  cells : List (List String)
  deriving DecidableEq

def Store.get (st : Store) (r : Nat) : List String :=
  st.cells.getD r []

def Store.setCell (st : Store) (r : Nat) (v : List String) : Store :=
  ⟨st.cells.set r v⟩

def Store.alloc (st : Store) (v : List String) : Store × Nat :=
  (⟨st.cells ++ [v]⟩, st.cells.length)

/-- Modelled from the spec: `Clone` allocates an independent copy of the
referenced set. -/
def OrderedSet.cloneS (st : Store) (r : Nat) : Store × Nat :=
  st.alloc (st.get r)

/-- Modelled from the spec: `Union` produces the receiver's elements first,
then the operand's new elements; the receiver cell is updated in place and
the operand cell is only read. -/
def OrderedSet.unionS (st : Store) (r other : Nat) : Store × Nat :=
  (st.setCell r (OrderedSet.union (st.get r) (st.get other)), r)

/-- The store steps performed at a root tree: allocate the parsed
per-commit set, clone it, and union the clone with the canonical cell —
the canonical cell is only the non-receiver operand. -/
def rootMergeS (st : Store) (theirs : List String) (trackedRef : Nat) :
    Store × Nat :=
  let a1 := st.alloc theirs
  let a2 := OrderedSet.cloneS a1.1 a1.2
  OrderedSet.unionS a2.1 a2.2 trackedRef

/-- `TreeCallbackFn` in store-passing form: the canonical set is the cell
`trackedRef`, passed only as the non-receiver operand of the union. -/
def TreeCallbackFnS (db : DB) (trackedRef : Nat) (st : Store)
    (path : String) (t : Tree) : Store × Except Err Tree :=
  if path ≠ "/" then (st, .ok t)
  else
    match trackedFromAttrs db t with
    | .error e => (st, .error e)
    | .ok theirs =>
      let a3 := rootMergeS st theirs trackedRef
      match trackedToBlob db (a3.1.get a3.2) with
      | .error e => (a3.1, .error e)
      | .ok blob => (a3.1, .ok (t.Merge ⟨".gitattributes", 0o100644, blob⟩))

/-- The engine visiting a sequence of trees, threading the store. -/
def runTreesS (db : DB) (trackedRef : Nat) :
    Store → List (String × Tree) → Store
  | st, [] => st
  | st, pt :: rest =>
    runTreesS db trackedRef (TreeCallbackFnS db trackedRef st pt.1 pt.2).1 rest

/-! ## Concrete fixtures used by the witness theorems -/

/-- A trivial database: every read yields the empty blob, every write yields
the id 0. -/
def db0 : DB := { readBlob := fun _ => .ok "", writeBlob := fun _ => .ok 0 }

/-- A database whose single blob is a one-line attribute file tracking
`*.psd`, and whose writes yield the id 42. -/
def dbW : DB :=
  { readBlob := fun _ => .ok "*.psd filter=lfs diff=lfs merge=lfs -text\n"
  , writeBlob := fun _ => .ok 42 }

/-- A root tree holding one `.gitattributes` entry with blob id 7. -/
def treeW : Tree := ⟨[⟨".gitattributes", 0o100644, 7⟩]⟩

/-- A database whose blob reads fail. -/
def dbReadFail : DB :=
  { readBlob := fun _ => .error "corrupt attr blob", writeBlob := fun _ => .ok 0 }

/-- A content filter that resolves every pointer to the same bytes. -/
def smudgeOk : String → String → Except Err String :=
  fun _ _ => .ok "real bytes"

/-- A content filter that always fails. -/
def smudgeErr : String → String → Except Err String :=
  fun _ _ => .error "malformed pointer"

/-- A pointer blob. -/
def blobW : Blob := ⟨"ptr", 3⟩

/-- An environment whose every collaborator succeeds, with one include
pattern and a failing bareness check. -/
def envW : Env :=
  { getObjectDatabase := .ok db0
  , filterInclude := ["*.bin"], filterExclude := []
  , smudge := smudgeOk
  , rewriteEngine := fun _ => (.ok (), 5)
  , isBare := (false, some "cannot determine bareness")
  , checkout := none }

/-- `envW` with an empty include list. -/
def envEmpty : Env := { envW with filterInclude := [] }

/-- `envW` with a failing rewrite engine. -/
def envEngineFail : Env :=
  { envW with rewriteEngine := fun _ => (.error "rewrite failed", 0)
            , isBare := (false, none) }

/-! ## Lemmas about the store -/

theorem get_alloc_old (st : Store) (v : List String) (r : Nat)
    (h : r < st.cells.length) : (st.alloc v).1.get r = st.get r := by
  unfold Store.alloc Store.get
  exact List.getD_append _ _ _ _ h

theorem get_alloc_new (st : Store) (v : List String) :
    (st.alloc v).1.get st.cells.length = v := by
  unfold Store.alloc Store.get
  rw [List.getD, List.get?_concat_length]
  rfl

theorem get_setCell_ne (st : Store) (r r' : Nat) (v : List String)
    (h : r' ≠ r) : (st.setCell r' v).get r = st.get r := by
  unfold Store.setCell Store.get
  rw [List.getD, List.getD, List.get?_set_ne _ _ h]

theorem get_setCell_eq (st : Store) (r : Nat) (v : List String)
    (h : r < st.cells.length) : (st.setCell r v).get r = v := by
  unfold Store.setCell Store.get
  rw [List.getD, List.get?_set_eq_of_lt v h]
  rfl

theorem length_alloc (st : Store) (v : List String) :
    (st.alloc v).1.cells.length = st.cells.length + 1 := by
  unfold Store.alloc
  simp

theorem alloc_snd (st : Store) (v : List String) :
    (st.alloc v).2 = st.cells.length := rfl

theorem length_setCell (st : Store) (r : Nat) (v : List String) :
    (st.setCell r v).cells.length = st.cells.length := by
  unfold Store.setCell
  simp

theorem cloneS_snd (st : Store) (r : Nat) :
    (OrderedSet.cloneS st r).2 = st.cells.length := rfl

theorem length_cloneS (st : Store) (r : Nat) :
    (OrderedSet.cloneS st r).1.cells.length = st.cells.length + 1 :=
  length_alloc st _

theorem get_cloneS_old (st : Store) (r r' : Nat) (h : r' < st.cells.length) :
    (OrderedSet.cloneS st r).1.get r' = st.get r' :=
  get_alloc_old st _ r' h

theorem get_cloneS_new (st : Store) (r : Nat) :
    (OrderedSet.cloneS st r).1.get (OrderedSet.cloneS st r).2 = st.get r :=
  get_alloc_new st _

theorem rootMergeS_get_tracked (st : Store) (theirs : List String) (r : Nat)
    (h : r < st.cells.length) :
    (rootMergeS st theirs r).1.get r = st.get r := by
  unfold rootMergeS OrderedSet.unionS
  dsimp only
  rw [get_setCell_ne]
  · rw [get_cloneS_old _ _ _ (by rw [length_alloc]; omega)]
    rw [get_alloc_old _ _ _ h]
  · rw [cloneS_snd, length_alloc]
    omega

theorem rootMergeS_get_result (st : Store) (theirs : List String) (r : Nat)
    (h : r < st.cells.length) :
    (rootMergeS st theirs r).1.get (rootMergeS st theirs r).2
      = OrderedSet.union theirs (st.get r) := by
  unfold rootMergeS OrderedSet.unionS
  dsimp only
  rw [get_setCell_eq]
  · rw [get_cloneS_new, alloc_snd, get_alloc_new]
    congr 1
    rw [get_cloneS_old _ _ _ (by rw [length_alloc]; omega)]
    rw [get_alloc_old _ _ _ h]
  · rw [cloneS_snd, length_cloneS, length_alloc]
    omega

theorem rootMergeS_length (st : Store) (theirs : List String) (r : Nat) :
    st.cells.length ≤ (rootMergeS st theirs r).1.cells.length := by
  unfold rootMergeS OrderedSet.unionS
  dsimp only
  rw [length_setCell, length_cloneS, length_alloc]
  omega

theorem TreeCallbackFnS_get_tracked (db : DB) (r : Nat) (st : Store)
    (p : String) (t : Tree) (h : r < st.cells.length) :
    (TreeCallbackFnS db r st p t).1.get r = st.get r := by
  unfold TreeCallbackFnS
  by_cases hp : p ≠ "/"
  · rw [if_pos hp]
  · rw [if_neg hp]
    cases ha : trackedFromAttrs db t with
    | error e => rfl
    | ok theirs =>
      dsimp only
      cases hw : trackedToBlob db
          ((rootMergeS st theirs r).1.get (rootMergeS st theirs r).2) with
      | error e =>
        dsimp only
        exact rootMergeS_get_tracked st theirs r h
      | ok blob =>
        dsimp only
        exact rootMergeS_get_tracked st theirs r h

theorem TreeCallbackFnS_length (db : DB) (r : Nat) (st : Store)
    (p : String) (t : Tree) :
    st.cells.length ≤ (TreeCallbackFnS db r st p t).1.cells.length := by
  unfold TreeCallbackFnS
  by_cases hp : p ≠ "/"
  · rw [if_pos hp]
  · rw [if_neg hp]
    cases ha : trackedFromAttrs db t with
    | error e => exact Nat.le_refl _
    | ok theirs =>
      dsimp only
      cases hw : trackedToBlob db
          ((rootMergeS st theirs r).1.get (rootMergeS st theirs r).2) with
      | error e =>
        dsimp only
        exact rootMergeS_length st theirs r
      | ok blob =>
        dsimp only
        exact rootMergeS_length st theirs r

theorem TreeCallbackFnS_agrees (db : DB) (r : Nat) (st : Store)
    (p : String) (t : Tree) (h : r < st.cells.length) :
    (TreeCallbackFnS db r st p t).2 = TreeCallbackFn db (st.get r) p t := by
  unfold TreeCallbackFnS TreeCallbackFn
  by_cases hp : p ≠ "/"
  · rw [if_pos hp, if_pos hp]
  · rw [if_neg hp, if_neg hp]
    cases ha : trackedFromAttrs db t with
    | error e => rfl
    | ok theirs =>
      dsimp only
      rw [rootMergeS_get_result st theirs r h]
      rw [show OrderedSet.clone theirs = theirs from rfl]
      cases hw : trackedToBlob db (OrderedSet.union theirs (st.get r)) with
      | error e => rfl
      | ok blob => rfl

theorem runTreesS_preserves (db : DB) (L : List (String × Tree)) :
    ∀ st : Store, 0 < st.cells.length →
      (runTreesS db 0 st L).get 0 = st.get 0
      ∧ 0 < (runTreesS db 0 st L).cells.length := by
  induction L with
  | nil =>
    intro st h
    exact ⟨rfl, h⟩
  | cons pt rest ih =>
    intro st h
    unfold runTreesS
    have h' : 0 < (TreeCallbackFnS db 0 st pt.1 pt.2).1.cells.length :=
      Nat.lt_of_lt_of_le h (TreeCallbackFnS_length db 0 st pt.1 pt.2)
    obtain ⟨e1, e2⟩ := ih (TreeCallbackFnS db 0 st pt.1 pt.2).1 h'
    exact ⟨e1.trans (TreeCallbackFnS_get_tracked db 0 st pt.1 pt.2 h), e2⟩

/-! ## Lemmas about ordered sets -/

theorem mem_add (a : List String) (x y : String) :
    y ∈ OrderedSet.add a x ↔ y ∈ a ∨ y = x := by
  unfold OrderedSet.add
  by_cases h : x ∈ a
  · simp only [h, if_pos]
    constructor
    · exact Or.inl
    · rintro (hy | rfl)
      · exact hy
      · exact h
  · simp [h, List.mem_append]

theorem add_nodup (a : List String) (x : String) (h : a.Nodup) :
    (OrderedSet.add a x).Nodup := by
  unfold OrderedSet.add
  by_cases hc : x ∈ a
  · simpa [hc]
  · simp only [hc, if_neg, not_false_iff]
    refine List.Nodup.append h (List.nodup_singleton x) ?_
    intro y hy hx
    rcases List.mem_singleton.mp hx with rfl
    exact hc hy

theorem foldl_add_nodup (b : List String) :
    ∀ a : List String, a.Nodup → (b.foldl OrderedSet.add a).Nodup := by
  induction b with
  | nil => intro a h; simpa using h
  | cons x b ih =>
    intro a h
    simpa using ih (OrderedSet.add a x) (add_nodup a x h)

theorem mem_foldl_add (b : List String) :
    ∀ (a : List String) (y : String),
      y ∈ b.foldl OrderedSet.add a ↔ y ∈ a ∨ y ∈ b := by
  induction b with
  | nil => intro a y; simp
  | cons x b ih =>
    intro a y
    rw [List.foldl_cons, ih]
    rw [mem_add]
    constructor
    · rintro ((h | rfl) | h)
      · exact Or.inl h
      · exact Or.inr (List.mem_cons_self _ _)
      · exact Or.inr (List.mem_cons_of_mem _ h)
    · rintro (h | h)
      · exact Or.inl (Or.inl h)
      · rcases List.mem_cons.mp h with rfl | h
        · exact Or.inl (Or.inr rfl)
        · exact Or.inr h

theorem union_eq_append_filter (b : List String) :
    ∀ a : List String, b.Nodup →
      OrderedSet.union a b = a ++ b.filter (fun x => decide (x ∉ a)) := by
  induction b with
  | nil => intro a _; simp [OrderedSet.union]
  | cons x b ih =>
    intro a hb
    have hbn : b.Nodup := hb.of_cons
    have hxb : x ∉ b := (List.nodup_cons.mp hb).1
    unfold OrderedSet.union at *
    rw [List.foldl_cons]
    by_cases hc : x ∈ a
    · have hadd : OrderedSet.add a x = a := by simp [OrderedSet.add, hc]
      rw [hadd, ih a hbn]
      have : List.filter (fun y => decide (y ∉ a)) (x :: b)
          = List.filter (fun y => decide (y ∉ a)) b := by
        simp [List.filter_cons, hc]
      rw [this]
    · have hadd : OrderedSet.add a x = a ++ [x] := by simp [OrderedSet.add, hc]
      rw [hadd, ih (a ++ [x]) hbn]
      have hfil : List.filter (fun y => decide (y ∉ a ++ [x])) b
          = List.filter (fun y => decide (y ∉ a)) b := by
        apply List.filter_congr
        intro y hy
        have hyx : y ≠ x := fun h => hxb (h ▸ hy)
        simp [List.mem_append, hyx]
      rw [hfil]
      have : List.filter (fun y => decide (y ∉ a)) (x :: b)
          = x :: List.filter (fun y => decide (y ∉ a)) b := by
        simp [List.filter_cons, hc]
      rw [this, List.append_assoc]
      simp

theorem union_nodup (a b : List String) (h : a.Nodup) :
    (OrderedSet.union a b).Nodup :=
  foldl_add_nodup b a h

theorem union_nil_of_nodup (b : List String) (hb : b.Nodup) :
    OrderedSet.union [] b = b := by
  rw [union_eq_append_filter b [] hb]
  simp

/-! ## Lemmas about the canonical set and attribute parsing -/

/-- The include lines of a filter. -/
def includeLines (inc : List String) : List String :=
  inc.map (fun p => escapeAttrPattern p ++ exportDirective)

/-- The exclude lines of a filter. -/
def excludeLines (exc : List String) : List String :=
  exc.map (fun p => escapeAttrPattern p ++ trackDirective)

theorem trackedFromExportFilter_eq_union (inc exc : List String) :
    trackedFromExportFilter inc exc
      = OrderedSet.union [] (includeLines inc ++ excludeLines exc) := by
  unfold trackedFromExportFilter OrderedSet.union includeLines excludeLines
  rw [List.foldl_append, List.foldl_map, List.foldl_map]

theorem trackedFromExportFilter_nodup (inc exc : List String) :
    (trackedFromExportFilter inc exc).Nodup := by
  rw [trackedFromExportFilter_eq_union]
  exact foldl_add_nodup _ [] List.nodup_nil

theorem parseAttrLines_nodup (content : String) :
    (parseAttrLines content).Nodup :=
  foldl_add_nodup _ [] List.nodup_nil

theorem trackedFromAttrs_nodup (db : DB) (t : Tree) (theirs : List String)
    (h : trackedFromAttrs db t = .ok theirs) : theirs.Nodup := by
  unfold trackedFromAttrs at h
  cases hf : t.entries.find? (fun e => e.name = ".gitattributes") with
  | none =>
    rw [hf] at h
    cases h
    exact List.nodup_nil
  | some e =>
    rw [hf] at h
    dsimp only at h
    cases hr : db.readBlob e.oid with
    | error err => rw [hr] at h; cases h
    | ok content =>
      rw [hr] at h
      cases h
      exact parseAttrLines_nodup content

/-! ## Claim theorems -/

/-- C2: `trackedFromExportFilter` emits one line per include pattern pairing
the escaped pattern with `text -filter -merge -diff`, then one line per
exclude pattern pairing the escaped pattern with
`filter=lfs diff=lfs merge=lfs -text`, in include-then-exclude order, with
byte-identical duplicate lines collapsed to one; with no duplicate lines
the result is exactly the `k1` include lines followed by the `k2` exclude
lines, `k1 + k2` lines in total. -/
theorem trackedFromExportFilter_spec (inc exc : List String) :
    (trackedFromExportFilter inc exc).Nodup
    ∧ (∀ l, l ∈ trackedFromExportFilter inc exc
        ↔ l ∈ includeLines inc ++ excludeLines exc)
    ∧ ((includeLines inc ++ excludeLines exc).Nodup →
        trackedFromExportFilter inc exc = includeLines inc ++ excludeLines exc
        ∧ (trackedFromExportFilter inc exc).length = inc.length + exc.length) := by
  refine ⟨trackedFromExportFilter_nodup inc exc, ?_, ?_⟩
  · intro l
    rw [trackedFromExportFilter_eq_union]
    unfold OrderedSet.union
    rw [mem_foldl_add]
    simp
  · intro h
    rw [trackedFromExportFilter_eq_union, union_nil_of_nodup _ h]
    refine ⟨rfl, ?_⟩
    unfold includeLines excludeLines
    simp

/-- Witness for C2 at a concrete filter: one include and one exclude
pattern give exactly the two lines in include-then-exclude order. -/
theorem trackedFromExportFilter_spec_witness :
    trackedFromExportFilter ["*.bin"] ["*.psd"]
      = includeLines ["*.bin"] ++ excludeLines ["*.psd"]
    ∧ (trackedFromExportFilter ["*.bin"] ["*.psd"]).length = 1 + 1 :=
  (trackedFromExportFilter_spec ["*.bin"] ["*.psd"]).2.2 (by decide)

/-- C4: for every path whose basename is not the attribute file name and
every blob whose pointer the content filter resolves successfully, the blob
transform returns a new blob holding the resolved bytes whose size is their
byte count. -/
theorem BlobFn_resolves (smudgeO : String → String → Except Err String)
    (path : String) (b : Blob) (bytes : String)
    (h1 : filepathBase path ≠ ".gitattributes")
    (h2 : smudgeO path b.contents = .ok bytes) :
    BlobFn smudgeO path b = .ok ⟨bytes, bytes.length⟩ := by
  unfold BlobFn
  rw [if_neg h1, h2]

/-- Witness for C4: a pointer blob at `img.bin` is replaced by the resolved
bytes, size 10. -/
theorem BlobFn_resolves_witness :
    BlobFn smudgeOk "img.bin" blobW = .ok ⟨"real bytes", 10⟩ :=
  BlobFn_resolves smudgeOk "img.bin" blobW "real bytes" (by decide) rfl

/-- C5: for every path whose basename equals `.gitattributes` the blob
transform returns the input blob unchanged, whatever the content filter
would do. -/
theorem BlobFn_gitattributes_id (smudgeO : String → String → Except Err String)
    (path : String) (b : Blob)
    (h : filepathBase path = ".gitattributes") :
    BlobFn smudgeO path b = .ok b := by
  unfold BlobFn
  rw [if_pos h]

/-- Witness for C5: the attribute file under a subdirectory passes through
even though the content filter always fails. -/
theorem BlobFn_gitattributes_id_witness :
    BlobFn smudgeErr "sub/.gitattributes" blobW = .ok blobW :=
  BlobFn_gitattributes_id smudgeErr "sub/.gitattributes" blobW (by decide)

/-- C6: for every tree whose path is not the repository root `"/"`, the
tree transform returns the input tree unchanged. -/
theorem TreeCallbackFn_nonroot_id (db : DB) (tracked : List String)
    (path : String) (t : Tree) (h : path ≠ "/") :
    TreeCallbackFn db tracked path t = .ok t := by
  unfold TreeCallbackFn
  rw [if_pos h]

/-- Witness for C6: a non-root tree passes through unchanged. -/
theorem TreeCallbackFn_nonroot_id_witness :
    TreeCallbackFn dbW (trackedFromExportFilter ["*.bin"] []) "/sub" treeW
      = .ok treeW :=
  TreeCallbackFn_nonroot_id dbW (trackedFromExportFilter ["*.bin"] []) "/sub"
    treeW (by decide)

/-- C1: at the root, the tree transform returns the input tree with its
`.gitattributes` entry replaced in place (or appended, with regular-file
mode `0100644`) to reference the blob serialising the union of the existing
lines with the canonical lines: every pre-existing line first in its
original order, then every canonical line not already present in canonical
order, with no duplicated line. -/
theorem TreeCallbackFn_root_merge (db : DB) (inc exc : List String) (t : Tree)
    (theirs : List String) (oid : Nat)
    (h1 : trackedFromAttrs db t = .ok theirs)
    (h2 : db.writeBlob (serializeSet (OrderedSet.union (OrderedSet.clone theirs)
            (trackedFromExportFilter inc exc))) = .ok oid) :
    TreeCallbackFn db (trackedFromExportFilter inc exc) "/" t
      = .ok (t.Merge ⟨".gitattributes", 0o100644, oid⟩)
    ∧ OrderedSet.union (OrderedSet.clone theirs) (trackedFromExportFilter inc exc)
        = theirs ++ (trackedFromExportFilter inc exc).filter
            (fun l => decide (l ∉ theirs))
    ∧ (OrderedSet.union (OrderedSet.clone theirs)
        (trackedFromExportFilter inc exc)).Nodup
    ∧ (t.entries.any (fun x => x.name = ".gitattributes") = false →
        (t.Merge ⟨".gitattributes", 0o100644, oid⟩).entries
          = t.entries ++ [⟨".gitattributes", 0o100644, oid⟩])
    ∧ (t.entries.any (fun x => x.name = ".gitattributes") = true →
        (t.Merge ⟨".gitattributes", 0o100644, oid⟩).entries
          = t.entries.map (fun x =>
              if x.name = ".gitattributes" then ⟨".gitattributes", 0o100644, oid⟩
              else x)) := by
  refine ⟨?_, ?_, ?_, ?_, ?_⟩
  · unfold TreeCallbackFn
    rw [if_neg (fun hne => hne rfl), h1]
    dsimp only
    unfold trackedToBlob
    rw [h2]
  · unfold OrderedSet.clone
    exact union_eq_append_filter _ theirs (trackedFromExportFilter_nodup inc exc)
  · exact union_nodup _ _ (trackedFromAttrs_nodup db t theirs h1)
  · intro hany
    unfold Tree.Merge
    rw [if_neg (by simp [hany])]
  · intro hany
    unfold Tree.Merge
    rw [if_pos (by simp [hany])]

/-- Witness for C1, matching Scenario C of the spec: the pre-existing root
attribute file tracks `*.psd`; with include `*.bin` the merged blob holds
that line first and the canonical export line second, and the tree's
`.gitattributes` entry now references the new blob id 42. -/
theorem TreeCallbackFn_root_merge_witness :
    TreeCallbackFn dbW (trackedFromExportFilter ["*.bin"] []) "/" treeW
      = .ok (treeW.Merge ⟨".gitattributes", 0o100644, 42⟩)
    ∧ OrderedSet.union
        (OrderedSet.clone ["*.psd filter=lfs diff=lfs merge=lfs -text"])
        (trackedFromExportFilter ["*.bin"] [])
        = ["*.psd filter=lfs diff=lfs merge=lfs -text"]
          ++ (trackedFromExportFilter ["*.bin"] []).filter
              (fun l =>
                decide (l ∉ ["*.psd filter=lfs diff=lfs merge=lfs -text"])) :=
  ⟨(TreeCallbackFn_root_merge dbW ["*.bin"] [] treeW
      ["*.psd filter=lfs diff=lfs merge=lfs -text"] 42 rfl rfl).1,
   (TreeCallbackFn_root_merge dbW ["*.bin"] [] treeW
      ["*.psd filter=lfs diff=lfs merge=lfs -text"] 42 rfl rfl).2.1⟩

/-- C3: with an empty include list the command exits fatally with a
non-zero status and the documented message, before the rewrite engine is
invoked: the engine never runs, zero objects are created and no refs are
updated. -/
theorem migrateExport_empty_include (env : Env) (db : DB)
    (h1 : env.getObjectDatabase = .ok db) (h2 : env.filterInclude = []) :
    (migrateExportCommand env).exitCode ≠ 0
    ∧ (migrateExportCommand env).fatalMsg
        = some "fatal: one or more files must be specified with --include"
    ∧ (migrateExportCommand env).rewriteInvoked = false
    ∧ (migrateExportCommand env).objectsCreated = 0
    ∧ (migrateExportCommand env).refsUpdated = false := by
  unfold migrateExportCommand
  rw [h1]
  dsimp only
  rw [if_pos (by simp [h2])]
  exact ⟨by decide, rfl, rfl, rfl, rfl⟩

/-- Witness for C3 in the concrete environment with no include pattern. -/
theorem migrateExport_empty_include_witness :
    (migrateExportCommand envEmpty).exitCode ≠ 0
    ∧ (migrateExportCommand envEmpty).fatalMsg
        = some "fatal: one or more files must be specified with --include"
    ∧ (migrateExportCommand envEmpty).rewriteInvoked = false
    ∧ (migrateExportCommand envEmpty).objectsCreated = 0
    ∧ (migrateExportCommand envEmpty).refsUpdated = false :=
  migrateExport_empty_include envEmpty db0 rfl rfl

/-- C9: on every execution path of the command after a successful database
acquisition — success, empty include list, rewrite failure, checkout
failure — the database handle is released when the command completes. -/
theorem migrateExport_dbClosed (env : Env) (db : DB)
    (h : env.getObjectDatabase = .ok db) :
    (migrateExportCommand env).dbClosed = true := by
  unfold migrateExportCommand
  rw [h]
  dsimp only
  by_cases hi : env.filterInclude.length ≤ 0
  · rw [if_pos hi]
  · rw [if_neg hi]
    cases hr : env.rewriteEngine (mkRewriteOptions env db) with
    | mk r n =>
      cases r with
      | error e => rfl
      | ok u =>
        dsimp only
        by_cases hb : env.isBare.1
        · rw [if_pos hb]
        · rw [if_neg hb]
          cases hc : env.checkout with
          | none => rfl
          | some e => rfl

/-- Witness for C9: the handle is released in the all-success environment. -/
theorem migrateExport_dbClosed_witness :
    (migrateExportCommand envW).dbClosed = true :=
  migrateExport_dbClosed envW db0 rfl

/-- C7: transform-level failures propagate unmodified with no new object
produced: a blob whose pointer the content filter cannot resolve makes the
blob transform return exactly that error; a root attribute blob that cannot
be read makes the tree transform return exactly that error; and a failing
rewrite leaves the command with a non-zero exit carrying that same error,
refs untouched and no checkout attempted. -/
theorem transform_errors_propagate :
    (∀ (smudgeO : String → String → Except Err String) (path : String)
        (b : Blob) (e : Err),
        filepathBase path ≠ ".gitattributes" →
        smudgeO path b.contents = .error e →
        BlobFn smudgeO path b = .error e)
    ∧ (∀ (db : DB) (tracked : List String) (t : Tree) (e : Err),
        trackedFromAttrs db t = .error e →
        TreeCallbackFn db tracked "/" t = .error e)
    ∧ (∀ (env : Env) (db : DB) (e : Err) (n : Nat),
        env.getObjectDatabase = .ok db →
        env.filterInclude ≠ [] →
        env.rewriteEngine (mkRewriteOptions env db) = (.error e, n) →
        (migrateExportCommand env).exitCode ≠ 0
        ∧ (migrateExportCommand env).fatalMsg = some e
        ∧ (migrateExportCommand env).refsUpdated = false
        ∧ (migrateExportCommand env).checkoutAttempted = false) := by
  refine ⟨?_, ?_, ?_⟩
  · intro smudgeO path b e h1 h2
    unfold BlobFn
    rw [if_neg h1, h2]
  · intro db tracked t e h
    unfold TreeCallbackFn
    rw [if_neg (fun hne => hne rfl), h]
  · intro env db e n h1 h2 h3
    have hlen : ¬ env.filterInclude.length ≤ 0 := by
      intro hle
      exact h2 (List.length_eq_zero.mp (Nat.le_zero.mp hle))
    unfold migrateExportCommand
    rw [h1]
    dsimp only
    rw [if_neg hlen, h3]
    dsimp only
    exact ⟨by decide, rfl, rfl, rfl⟩

/-- Witness for C7: a failing content filter, a corrupt attribute blob and
a failing rewrite engine each surface their own error unmodified. -/
theorem transform_errors_propagate_witness :
    BlobFn smudgeErr "img.bin" blobW = .error "malformed pointer"
    ∧ TreeCallbackFn dbReadFail (trackedFromExportFilter ["*.bin"] []) "/" treeW
        = .error "corrupt attr blob"
    ∧ (migrateExportCommand envEngineFail).fatalMsg = some "rewrite failed"
    ∧ (migrateExportCommand envEngineFail).refsUpdated = false :=
  ⟨transform_errors_propagate.1 smudgeErr "img.bin" blobW "malformed pointer"
      (by decide) rfl,
   transform_errors_propagate.2.1 dbReadFail
      (trackedFromExportFilter ["*.bin"] []) treeW "corrupt attr blob" rfl,
   (transform_errors_propagate.2.2 envEngineFail db0 "rewrite failed" 0
      rfl (by decide) rfl).2.1,
   (transform_errors_propagate.2.2 envEngineFail db0 "rewrite failed" 0
      rfl (by decide) rfl).2.2.1⟩

/-- C10: when the bareness check fails after a successful rewrite, its
error is discarded, the repository counts as non-bare, the forced checkout
is still attempted, and the run is indistinguishable from one whose
bareness check succeeded with `false`. -/
theorem isBare_error_discarded (env : Env) (db : DB) (e : Err) (n : Nat)
    (h1 : env.getObjectDatabase = .ok db)
    (h2 : env.filterInclude ≠ [])
    (h3 : env.rewriteEngine (mkRewriteOptions env db) = (.ok (), n))
    (h4 : env.isBare = (false, some e)) :
    (migrateExportCommand env).checkoutAttempted = true
    ∧ migrateExportCommand env
        = migrateExportCommand { env with isBare := (false, none) } := by
  obtain ⟨ga, fi, fe, sm, re, ib, co⟩ := env
  cases h4
  cases h1
  dsimp only at h2 h3
  have hlen : ¬ fi.length ≤ 0 := by
    intro hle
    exact h2 (List.length_eq_zero.mp (Nat.le_zero.mp hle))
  constructor
  · unfold migrateExportCommand
    dsimp only
    rw [if_neg hlen, h3]
    dsimp only
    rw [if_neg Bool.false_ne_true]
    cases co with
    | none => rfl
    | some e' => rfl
  · unfold migrateExportCommand
    dsimp only
    rw [if_neg hlen, if_neg hlen]
    rw [show mkRewriteOptions
          ⟨Except.ok db, fi, fe, sm, re, ((false : Bool), (none : Option Err)), co⟩ db
        = mkRewriteOptions
          ⟨Except.ok db, fi, fe, sm, re, ((false : Bool), some e), co⟩ db from rfl]

/-- Witness for C10 in the all-success environment whose bareness check
fails. -/
theorem isBare_error_discarded_witness :
    (migrateExportCommand envW).checkoutAttempted = true
    ∧ migrateExportCommand envW
        = migrateExportCommand { envW with isBare := (false, none) } :=
  isBare_error_discarded envW db0 "cannot determine bareness" 5
    rfl (by decide) rfl rfl

/-- C8: the canonical attribute set is computed exactly once, before any
traversal, and is fixed in the options handed to the engine; running the
tree transform over any sequence of trees — with in-place set semantics in
which every merge clones the per-commit set and passes the canonical cell
only as the non-receiver operand of the union — leaves the canonical cell's
elements and order unchanged after every prefix of the run, and every
invocation behaves as the pure transform applied to that same canonical
set. -/
theorem canonical_set_invariant (db : DB) (inc exc : List String)
    (L : List (String × Tree)) :
    (∀ k : Nat,
        Store.get (runTreesS db 0 ⟨[trackedFromExportFilter inc exc]⟩ (L.take k)) 0
          = trackedFromExportFilter inc exc)
    ∧ (∀ (st : Store) (p : String) (t : Tree),
        0 < st.cells.length →
        (TreeCallbackFnS db 0 st p t).2
          = TreeCallbackFn db (Store.get st 0) p t)
    ∧ (∀ (env : Env) (db' : DB),
        (mkRewriteOptions env db').treeCallbackFn
          = TreeCallbackFn db'
              (trackedFromExportFilter env.filterInclude env.filterExclude)) := by
  refine ⟨?_, ?_, ?_⟩
  · intro k
    exact (runTreesS_preserves db (L.take k)
      ⟨[trackedFromExportFilter inc exc]⟩ Nat.one_pos).1
  · intro st p t h
    exact TreeCallbackFnS_agrees db 0 st p t h
  · intro env db'
    rfl

/-- Witness for C8: one root-tree visit over the concrete store leaves the
canonical cell's value intact and agrees with the pure transform. -/
theorem canonical_set_invariant_witness :
    Store.get (runTreesS dbW 0 ⟨[trackedFromExportFilter ["*.bin"] []]⟩
        ([(("/" : String), treeW)].take 1)) 0
      = trackedFromExportFilter ["*.bin"] []
    ∧ (TreeCallbackFnS dbW 0 ⟨[trackedFromExportFilter ["*.bin"] []]⟩ "/" treeW).2
        = TreeCallbackFn dbW
            (Store.get ⟨[trackedFromExportFilter ["*.bin"] []]⟩ 0) "/" treeW :=
  ⟨(canonical_set_invariant dbW ["*.bin"] [] [(("/" : String), treeW)]).1 1,
   (canonical_set_invariant dbW ["*.bin"] [] [(("/" : String), treeW)]).2.1
     ⟨[trackedFromExportFilter ["*.bin"] []]⟩ "/" treeW (by decide)⟩

end GitLfs
